import Mathlib

/-!
Verification of the corust sum-type compiler (a Rust procedural-macro crate).

The development shallowly embeds the crate's token-level algorithms:

* a `Tok` type mirroring `proc_macro2::TokenTree` (identifiers, literals,
  punctuation with spacing, and delimited groups);
* the textual type-parameter substitution engine of `src/helpers.rs`
  (`extract_trait_type_args`, `substitute_type_params`), with Rust's
  `str::replace` modelled character-exactly for non-empty patterns;
* the per-variant method generation of `src/variant_gen.rs`
  (`generate_method_body` arm selection, and the generic-parameter
  filtering of `generate_combined_trait_impl`);
* the accessor protocol of `src/codegen.rs` (`generate_trait` /
  `generate_variant_struct`) for zero-field variants;
* the declaration scanners of `src/parser.rs` (`parse_variant`) and
  `src/enum_parser.rs` (the refinement-type scan);
* the dispatch-arm parser `parse_match_arms` shared by
  `src/pattern_parser.rs`, `src/match_macro.rs` and `src/lib.rs`;
* the pattern rewriting `transform_pattern_add_rest` of
  `src/match_macro.rs`;
* the runtime semantics of the code generated by the dispatch macros
  (`match_t!` in `src/lib.rs`, `g!(match ...)` in `src/match_macro.rs`),
  in both borrowed and move mode.
-/

/-- Group delimiter of a token tree, as in `proc_macro2::Delimiter`
(`None`-delimited groups do not occur in the modelled code paths). -/
inductive Delim where
  | paren
  | brace
  | bracket

/-- Punctuation spacing, as in `proc_macro2::Spacing`: `joint` when the
punctuation character is immediately followed by another punctuation
character (so `->` is `punct '-' joint` then `punct '>' alone`). -/
inductive Spacing where
  | joint
  | alone

/-- A token tree, mirroring `proc_macro2::TokenTree`. -/
inductive Tok where
  | ident (s : String)
  | lit (s : String)
  | punct (c : Char) (sp : Spacing)
  | group (d : Delim) (ts : List Tok)

/-- True for a `Tok.group`; mirrors `matches!(t, TokenTree::Group(_))`. -/
def Tok.isGroup : Tok → Bool
  | Tok.group _ _ => true
  | _ => false

/-- True for a comma punctuation token (any spacing), as matched by
`syn::Token![,]` peeks and `p.as_char() == ','` tests in the source. -/
def Tok.isComma : Tok → Bool
  | Tok.punct ',' _ => true
  | _ => false

/-- Substring test on character lists: Rust's `str::contains(&str)`.
Scans left to right for a position where the pattern is a prefix. -/
def listContains (s pat : List Char) : Bool :=
  if pat.isPrefixOf s then true
  else
    match s with
    | [] => false
    | _ :: rest => listContains rest pat

/-- Rust's `String::contains` on the Lean `String` type. -/
def strContains (s pat : String) : Bool :=
  listContains s.data pat.data

/-- One pass of Rust's `str::replace` on character lists, fuelled by the
length of the scanned list: at each position, if the (non-empty) pattern
matches, emit the replacement and skip past the match (non-overlapping,
left to right), otherwise keep the character. -/
def replaceFuel (pat rep : List Char) : Nat → List Char → List Char
  | 0, s => s
  | _ + 1, [] => []
  | n + 1, c :: rest =>
    if pat.isPrefixOf (c :: rest) then
      rep ++ replaceFuel pat rep n (List.drop pat.length (c :: rest))
    else
      c :: replaceFuel pat rep n rest

/-- Rust's `str::replace` for non-empty patterns (every call site in
`src/helpers.rs` uses a non-empty pattern; the empty-pattern case is
never exercised and is modelled as the identity). -/
def rustReplace (s pat rep : String) : String :=
  if pat.isEmpty then s
  else String.mk (replaceFuel pat.data rep.data s.data.length s.data)

/-- ASCII lowercasing of a string: Rust's `str::to_lowercase` restricted
to the ASCII identifiers that variant names are in this crate. -/
def lowerStr (s : String) : String :=
  String.mk (s.data.map Char.toLower)

/-- Decimal digit character for `d < 10`. -/
def digitChar (d : Nat) : Char :=
  Char.ofNat (48 + d % 10)

/-- Decimal digits of a natural number, most significant first, with a
structural fuel so the kernel can evaluate it. -/
def natDigitsAux : Nat → Nat → List Char
  | 0, _ => []
  | fuel + 1, n =>
    if n < 10 then [digitChar n]
    else natDigitsAux fuel (n / 10) ++ [digitChar (n % 10)]

/-- Decimal rendering of a natural number, Rust's `format!("{}", i)`. -/
def natToStr (n : Nat) : String :=
  String.mk (natDigitsAux (n + 1) n)

/-- Rust's `str::trim`: drop whitespace from both ends. -/
def trimStr (s : String) : String :=
  String.mk (((s.data.dropWhile Char.isWhitespace).reverse.dropWhile Char.isWhitespace).reverse)

/-- Rendering of a token back to text, following `proc_macro2`'s
`Display` on the single tokens that reach `TokenStream::to_string` in
`substitute_type_params` (identifiers, literals, punctuation); groups
render their delimiters around the space-joined content. -/
def tokToString : Tok → String
  | Tok.ident s => s
  | Tok.lit s => s
  | Tok.punct c _ => String.singleton c
  | Tok.group d ts =>
    (match d with | Delim.paren => "(" | Delim.brace => "\x7b " | Delim.bracket => "[")
      ++ toksJoin ts
      ++ (match d with | Delim.paren => ")" | Delim.brace => " \x7d" | Delim.bracket => "]")
where
  /-- Space-joined rendering of a token list, as `proc_macro2` separates
  adjacent trees in `TokenStream::to_string`. -/
  toksJoin : List Tok → String
    | [] => ""
    | [t] => tokToString t
    | t :: rest => tokToString t ++ " " ++ toksJoin rest

/-- Loop body of `extract_trait_type_args` (src/helpers.rs lines 51-80):
argument accumulation while walking the flat token list of a trait type
such as `Pair<B, A>`. `ia` is the `in_angles` flag, `cur` the pending
argument, `acc` the arguments already flushed. A `<` enters angle mode,
a `>` flushes and stops (`break`), a comma in angle mode flushes, any
other token in angle mode joins the pending argument, and tokens outside
angle mode are skipped. -/
def extractArgsGo : List Tok → Bool → List Tok → List (List Tok) → List (List Tok)
  | [], _, _, acc => acc
  | Tok.punct '<' _ :: rest, _, cur, acc => extractArgsGo rest true cur acc
  | Tok.punct '>' _ :: _, _, cur, acc => acc ++ (if cur.isEmpty then [] else [cur])
  | Tok.punct ',' _ :: rest, true, cur, acc =>
    extractArgsGo rest true [] (acc ++ (if cur.isEmpty then [] else [cur]))
  | _ :: rest, false, cur, acc => extractArgsGo rest false cur acc
  | t :: rest, true, cur, acc => extractArgsGo rest true (cur ++ [t]) acc

/-- `extract_trait_type_args` (src/helpers.rs lines 51-80): the type
arguments of a trait type token stream, e.g. `Pair<B, A>` to `[B, A]`. -/
def extract_trait_type_args (trait_type : List Tok) : List (List Tok) :=
  extractArgsGo trait_type false [] []

/-- The placeholder string `__PLACEHOLDER_{i}__` used by the first
substitution pass (src/helpers.rs line 100). -/
def placeholderStr (i : Nat) : String :=
  "__PLACEHOLDER_" ++ natToStr i ++ "__"

/-- The chain of nine `str::replace` calls applied for one enum parameter
in the first pass of `substitute_type_params` (src/helpers.rs lines
101-113): occurrences adjacent to `&`, `(`, `,`, `)` or after `->` are
diverted to the positional placeholder. -/
def substStep (r : String) (p : String) (i : Nat) : String :=
  let ph := placeholderStr i
  let r := rustReplace r ("& " ++ p) ("&" ++ ph)
  let r := rustReplace r ("&" ++ p) ("&" ++ ph)
  let r := rustReplace r ("( " ++ p) ("(" ++ ph)
  let r := rustReplace r ("(" ++ p) ("(" ++ ph)
  let r := rustReplace r (p ++ " ,") (ph ++ ",")
  let r := rustReplace r (p ++ ",") (ph ++ ",")
  let r := rustReplace r (p ++ " )") (ph ++ ")")
  let r := rustReplace r (p ++ ")") (ph ++ ")")
  let r := rustReplace r ("-> " ++ p) ("-> " ++ ph)
  r

/-- First pass of `substitute_type_params` (src/helpers.rs lines 96-115):
each enum parameter with a positionally corresponding trait argument is
renamed to its placeholder. -/
def substPass1 (sig : String) (enum_params : List String) (numArgs : Nat) : String :=
  enum_params.enum.foldl (fun r (ip : Nat × String) =>
    if ip.1 < numArgs then substStep r ip.2 ip.1 else r) sig

/-- Second pass of `substitute_type_params` (src/helpers.rs lines
117-126): each placeholder is replaced by the literal text of the
positionally corresponding trait type argument. -/
def substPass2 (r : String) (enum_params : List String) (args : List (List Tok)) : String :=
  enum_params.enum.foldl (fun r (ip : Nat × String) =>
    match args.get? ip.1 with
    | some arg => rustReplace r (placeholderStr ip.1) (trimStr (tokToString.toksJoin arg))
    | none => r) r

/-- `substitute_type_params` (src/helpers.rs lines 85-129): rewrite a
textual operation signature according to a variant's refinement type;
the identity when the refinement carries no type arguments. -/
def substitute_type_params (sig_str : String) (trait_type : List Tok)
    (enum_params : List String) : String :=
  let args := extract_trait_type_args trait_type
  if args.isEmpty then sig_str
  else substPass2 (substPass1 sig_str enum_params args.length) enum_params args

/-- `extract_type_params_from_trait` (src/variant_gen.rs lines 13-39):
collect the identifiers of a trait type's token stream that are among
the declared type parameters, recursing into groups. The Rust function
returns a `HashSet`; the Lean model returns the collection list, whose
membership is what the claims are about. -/
def extract_type_params_from_trait : List Tok → List String → List String
  | [], _ => []
  | Tok.ident s :: rest, all =>
    (if all.contains s then [s] else []) ++ extract_type_params_from_trait rest all
  | Tok.group _ inner :: rest, all =>
    extract_type_params_from_trait inner all ++ extract_type_params_from_trait rest all
  | _ :: rest, all => extract_type_params_from_trait rest all

/-- The generic-parameter filtering of `generate_combined_trait_impl`
(src/variant_gen.rs lines 138-172): `used_params` is the union of the
parameters extracted from the variant's trait type and from the
variant's own type generics, and the impl block keeps exactly the
declared parameters (from `generics_with_static`) that lie in it. -/
def filtered_impl_generics (genericsParams : List String)
    (trait_type variant_ty_generics : List Tok) (all_type_params : List String) :
    List String :=
  let used_params := extract_type_params_from_trait trait_type all_type_params
    ++ extract_type_params_from_trait variant_ty_generics all_type_params
  genericsParams.filter (fun p => used_params.contains p)

/-- A shared-operation arm as carried by `ParsedMethod`
(src/enum_parser.rs lines 18-22); `generate_method_body` consults only
the rendered pattern text and the body. -/
structure MethodArm where
  pattern : String
  body : String
deriving DecidableEq

/-- The arm-selection predicate of `generate_method_body`
(src/variant_gen.rs line 78): the rendered pattern text contains the
variant name as a substring. -/
def arm_names_variant (arm : MethodArm) (variant_name : String) : Bool :=
  strContains arm.pattern variant_name

/-- The `matching_arms` vector of `generate_method_body`
(src/variant_gen.rs lines 73-80). -/
def matching_arms (variant_name : String) (arms : List MethodArm) : List MethodArm :=
  arms.filter (fun a => arm_names_variant a variant_name)

/-- The data of the method implementation emitted by
`generate_method_body` (src/variant_gen.rs lines 86-123): the
substituted signature, the body spliced from the selected arm, and the
`is_boxed_self` flag. -/
structure GeneratedMethodImpl where
  sig : String
  body : String
  is_boxed_self : Bool
deriving DecidableEq

/-- `generate_method_body` (src/variant_gen.rs lines 62-124): `none`
when no arm's pattern mentions the variant, otherwise the first matching
arm supplies the body, the signature is rewritten by
`substitute_type_params`, and `is_boxed_self` records whether the
signature consumes `self : Box<Self>`. -/
def generate_method_body (variant_name : String) (method_sig : String)
    (arms : List MethodArm) (trait_type : List Tok) (all_type_params_ordered : List String) :
    Option GeneratedMethodImpl :=
  match matching_arms variant_name arms with
  | [] => none
  | arm :: _ =>
    let new_sig := substitute_type_params method_sig trait_type all_type_params_ordered
    let is_boxed := strContains method_sig "self : Box < Self >"
      || strContains method_sig "self: Box<Self>"
    some { sig := new_sig, body := arm.body, is_boxed_self := is_boxed }

/-- Result type of a generated hidden accessor, following the five
branches of `generate_trait` (src/codegen.rs lines 104-134): unit for
zero-field variants, a direct field reference or reference tuple when no
variant-local generics are involved, and type-erased `&dyn Any` capsules
otherwise. -/
inductive AccessorRet where
  | unit
  | refParam (ty : String)
  | anyRef
  | tupleRefs (tys : List String)
  | tupleAny (n : Nat)

/-- The return-type selection of `generate_trait` (src/codegen.rs lines
101-134), keyed on the variant's field count and on whether it declares
variant-local generics. -/
def trait_accessor_ret (param_types : List String) (has_variant_generics : Bool) :
    AccessorRet :=
  if param_types.length = 0 then AccessorRet.unit
  else if param_types.length = 1 && !has_variant_generics then
    AccessorRet.refParam (param_types.headD "")
  else if param_types.length = 1 && has_variant_generics then AccessorRet.anyRef
  else if !has_variant_generics then AccessorRet.tupleRefs param_types
  else AccessorRet.tupleAny param_types.length

/-- The hidden accessor method name `__as_{lowercased variant name}`
(src/codegen.rs lines 90-97 and 190-197). -/
def accessor_method_name (variant_name : String) : String :=
  "__as_" ++ lowerStr variant_name

/-- Default body of the zero-field accessor declared on the trait
(src/codegen.rs line 107): `None`. -/
def zero_field_trait_default : Option Unit := none

/-- Body of the zero-field accessor on the variant's own impl block
(src/codegen.rs line 203): `Some(())`. -/
def zero_field_accessor_impl : Option Unit := some ()

/-- Dynamic dispatch of a zero-field hidden accessor: invoking variant
`callee`'s accessor on a record of variant `owner`. The generated impl
block for `owner` (src/codegen.rs lines 257-259 and 281-283) overrides
exactly the method named `accessor_method_name owner`; every other trait
method resolves to the trait default. -/
def invoke_zero_field_accessor (callee owner : String) : Option Unit :=
  if accessor_method_name callee = accessor_method_name owner then
    zero_field_accessor_impl
  else
    zero_field_trait_default

/-- Angle-bracket depth change of one token in `parse_variant`
(src/parser.rs lines 91-96): `<` increments, `>` decrements, everything
else leaves the depth unchanged (the depth is a Rust `i32` and may go
negative). -/
def angleDelta : Tok → Int
  | Tok.punct '<' _ => 1
  | Tok.punct '>' _ => -1
  | _ => 0

/-- The token scan of `parse_variant` (src/parser.rs lines 71-108) that
splits a variant's annotation into parameter types and a return type.
`d` is the angle depth, `cur` the pending tokens, `ps` the parameter
types flushed so far. A top-level (depth-0) comma stops the scan; an
arrow — `syn::Token![->]`, i.e. a joint `-` followed by `>` — flushes
the pending tokens as a parameter type at ANY depth, because the arrow
check in the source is not guarded by the depth; any other token is
consumed with its depth effect. Returns the parameter types and the
remaining pending tokens (the return type). -/
def scanVariantTypes : List Tok → Int → List Tok → List (List Tok) →
    (List (List Tok)) × List Tok
  | [], _, cur, ps => (ps, cur)
  | Tok.punct '-' Spacing.joint :: Tok.punct '>' _ :: rest, d, cur, ps =>
    scanVariantTypes rest d [] (ps ++ (if cur.isEmpty then [] else [cur]))
  | t :: rest, d, cur, ps =>
    if t.isComma ∧ d = 0 then (ps, cur)
    else scanVariantTypes rest (d + angleDelta t) (cur ++ [t]) ps

/-- The parameter-type/return-type split performed by `parse_variant`
(src/parser.rs lines 71-108) on the tokens following the variant's
colon. -/
def parse_variant_types (input : List Tok) : (List (List Tok)) × List Tok :=
  scanVariantTypes input 0 [] []

/-- Angle-depth update of the refinement-type scan in
`ParsedEnum::parse` (src/enum_parser.rs lines 94-101): `<` increments,
`>` decrements with `saturating_sub` (the depth is a `u32`-like `i32`
kept non-negative), so the depth is a natural number here. -/
def angleStepNat (d : Nat) : Tok → Nat
  | Tok.punct '<' _ => d + 1
  | Tok.punct '>' _ => d - 1
  | _ => d

/-- The refinement-type scan of `ParsedEnum::parse` (src/enum_parser.rs
lines 80-109): collect the trait-type tokens of a variant's `: Type`
annotation up to the first comma at angle depth zero. Returns the
collected type tokens and the unconsumed remainder (beginning with the
stopping comma, when there is one). -/
def scanTraitType : List Tok → Nat → List Tok → List Tok × List Tok
  | [], _, acc => (acc, [])
  | t :: rest, d, acc =>
    if t.isComma ∧ d = 0 then (acc, t :: rest)
    else scanTraitType rest (angleStepNat d t) (acc ++ [t])

/-- Parser state of `parse_match_arms` (src/pattern_parser.rs lines
96-147, duplicated at src/match_macro.rs lines 91-144 and inlined in
`parse_match_t` at src/lib.rs lines 113-164): the arms flushed so far,
the pending pattern and body token vectors, and the `in_body` flag. -/
structure ArmsState where
  arms : List (List Tok × List Tok)
  pat : List Tok
  body : List Tok
  inBody : Bool

/-- One iteration of the `parse_match_arms` token loop, with the branch
structure of the source: a `=` outside a body joins the pattern; a `>`
with a non-empty pending pattern either completes a `=>` (dropping the
`=` and entering body mode) or joins the pattern; a comma in body mode
flushes the pending pair as an arm; every other token joins the body or
the pattern according to the flag. -/
def armsStep (st : ArmsState) (t : Tok) : ArmsState :=
  match t with
  | Tok.punct '=' sp =>
    if !st.inBody then { st with pat := st.pat ++ [Tok.punct '=' sp] }
    else { st with body := st.body ++ [Tok.punct '=' sp] }
  | Tok.punct '>' sp =>
    if !st.pat.isEmpty then
      match st.pat.getLast? with
      | some (Tok.punct '=' _) => { st with pat := st.pat.dropLast, inBody := true }
      | _ => { st with pat := st.pat ++ [Tok.punct '>' sp] }
    else if st.inBody then { st with body := st.body ++ [Tok.punct '>' sp] }
    else { st with pat := st.pat ++ [Tok.punct '>' sp] }
  | Tok.punct ',' sp =>
    if st.inBody then
      { arms := st.arms ++ [(st.pat, st.body)], pat := [], body := [], inBody := false }
    else { st with pat := st.pat ++ [Tok.punct ',' sp] }
  | t =>
    if st.inBody then { st with body := st.body ++ [t] }
    else { st with pat := st.pat ++ [t] }

/-- `parse_match_arms` (src/pattern_parser.rs lines 96-147): run the
token loop from the empty state, then flush the pending pair as a final
arm when it is non-empty ("Don't forget the last arm"). -/
def parse_match_arms (tokens : List Tok) : List (List Tok × List Tok) :=
  let st := tokens.foldl armsStep ⟨[], [], [], false⟩
  st.arms ++ (if !st.pat.isEmpty || !st.body.isEmpty then [(st.pat, st.body)] else [])

/-- The rest-token test of `transform_pattern_add_rest`
(src/match_macro.rs lines 392-394): some token of the group is a `.`
with joint spacing. -/
def has_rest_tok (inner : List Tok) : Bool :=
  inner.any fun t =>
    match t with
    | Tok.punct '.' Spacing.joint => true
    | _ => false

/-- The two punctuation tokens of an appended `..`
(src/match_macro.rs lines 404-412). -/
def restDots : List Tok :=
  [Tok.punct '.' Spacing.joint, Tok.punct '.' Spacing.alone]

/-- True when the group's last token is a comma
(src/match_macro.rs line 398). -/
def lastIsComma (inner : List Tok) : Bool :=
  match inner.getLast? with
  | some (Tok.punct ',' _) => true
  | _ => false

/-- The group rewrite of `transform_pattern_add_rest`
(src/match_macro.rs lines 389-415): when the group has no rest token and
is non-empty, append a comma unless one already ends the group, then
append `..`; otherwise leave the group's tokens unchanged. -/
def add_rest_inner (inner : List Tok) : List Tok :=
  if !has_rest_tok inner && !inner.isEmpty then
    (if lastIsComma inner then inner else inner ++ [Tok.punct ',' Spacing.alone]) ++ restDots
  else inner

/-- Right-to-left search for the last group of a pattern, on the
reversed token list: the first group found is rewritten and the search
stops (`break` at src/match_macro.rs line 417); `none` when the pattern
has no group. -/
def addRestAux : List Tok → Option (List Tok)
  | [] => none
  | Tok.group d inner :: rest => some (Tok.group d (add_rest_inner inner) :: rest)
  | t :: rest => (addRestAux rest).map (fun r => t :: r)

/-- `transform_pattern_add_rest` (src/match_macro.rs lines 383-422):
rewrite the last group of the pattern via `add_rest_inner`; the pattern
is returned unchanged when it has no group. -/
def transform_pattern_add_rest (pattern : List Tok) : List Tok :=
  match addRestAux pattern.reverse with
  | some r => r.reverse
  | none => pattern

/-- One dispatch arm of a `match_t!` / `g!(match ...)` expansion, at the
level of the generated runtime code: the leading type name of the arm's
pattern (the tokens before the first group or punctuation, used for the
`is::<T>` probe and the downcast), whether the arm's field pattern
structurally matches the variant's value (`patOk`), and the value the
arm's body evaluates to. -/
structure DispatchArm (α : Type) where
  tyName : String
  patOk : Bool
  body : α
deriving DecidableEq

/-- Outcome of evaluating a generated dispatch expression: a value, or
an abort through `panic!` / `.expect` with the given message. -/
inductive DispatchResult (α : Type) where
  | value (v : α)
  | fatal (msg : String)
deriving DecidableEq

/-- The per-arm test of the borrowed `match_t!` expansion (src/lib.rs
lines 263-269): the `downcast_ref::<T>` succeeds exactly when the
handle's concrete type is the arm's type, and the arm fires when the
field pattern then matches. -/
def ref_probe {α : Type} (a : DispatchArm α) (handle_ty : String) : Bool :=
  a.tyName == handle_ty && a.patOk

/-- The guarded-probe sequence of the borrowed `match_t!` expansion
(src/lib.rs lines 272-278): the closure returns at the first arm whose
probe fires, `none` when it falls through every arm. -/
def ref_match_loop {α : Type} : List (DispatchArm α) → String → Option α
  | [], _ => none
  | a :: rest, h => if ref_probe a h then some a.body else ref_match_loop rest h

/-- The borrowed `match_t!` expansion (src/lib.rs lines 251-283): the
closure's `Option` result is forced with
`.expect("No matching type found in match_t!")`. -/
def ref_match_eval {α : Type} (arms : List (DispatchArm α)) (handle_ty : String) :
    DispatchResult α :=
  match ref_match_loop arms handle_ty with
  | some v => DispatchResult.value v
  | none => DispatchResult.fatal "No matching type found in match_t!"

/-- The per-arm accessor probe of the borrowed `g!(match ...)` expansion
(src/match_macro.rs lines 217-327): the handle's `__as_{lowercase
variant}` method returns `Some` exactly when the record's own variant
generates that method name, and the arm fires when the local pattern
then matches. -/
def g_ref_probe {α : Type} (a : DispatchArm α) (handle_ty : String) : Bool :=
  (accessor_method_name a.tyName == accessor_method_name handle_ty) && a.patOk

/-- The guarded accessor sequence of the borrowed `g!(match ...)`
expansion (src/match_macro.rs lines 330-338). -/
def g_ref_match_loop {α : Type} : List (DispatchArm α) → String → Option α
  | [], _ => none
  | a :: rest, h => if g_ref_probe a h then some a.body else g_ref_match_loop rest h

/-- The borrowed `g!(match ...)` expansion (src/match_macro.rs lines
330-341), forced with `.expect("No matching type found in g!(match)!")`. -/
def g_ref_match_eval {α : Type} (arms : List (DispatchArm α)) (handle_ty : String) :
    DispatchResult α :=
  match g_ref_match_loop arms handle_ty with
  | some v => DispatchResult.value v
  | none => DispatchResult.fatal "No matching type found in g!(match)!"

/-- The straight-line probe pass of the move-mode expansions
(src/match_macro.rs lines 148-162 and 192-197; identically src/lib.rs
lines 190-204 and 231-236): for each arm in order, `if (&*__expr as &dyn
Any).is::<T>() { __matched_idx = Some(idx) }` — an unconditional
overwrite, so a later matching probe replaces an earlier one. `i` is the
index of the first arm of the remaining list, `acc` the current
`__matched_idx`. -/
def move_probe_loop {α : Type} (handle_ty : String) :
    List (DispatchArm α) → Nat → Option Nat → Option Nat
  | [], _, acc => acc
  | a :: rest, i, acc =>
    move_probe_loop handle_ty rest (i + 1)
      (if a.tyName == handle_ty then some i else acc)

/-- The value of `__matched_idx` after all probes of a move-mode
expansion have run. -/
def move_probe_pass {α : Type} (arms : List (DispatchArm α)) (handle_ty : String) :
    Option Nat :=
  move_probe_loop handle_ty arms 0 none

/-- The second-pass index switch of the move-mode `g!(match ...)`
expansion (src/match_macro.rs lines 177-207): a known index selects its
arm, downcasts the box (succeeding exactly on type equality), and
matches the transformed pattern, each failure aborting with the
corresponding panic message; an index naming no arm falls to the
defensive `_ => panic!("Invalid match index in g!(match move)!")`. -/
def move_index_switch {α : Type} (arms : List (DispatchArm α)) (handle_ty : String)
    (idx : Nat) : DispatchResult α :=
  match arms.get? idx with
  | some a =>
    if a.tyName == handle_ty then
      if a.patOk then DispatchResult.value a.body
      else DispatchResult.fatal "Pattern match failed in g!(match move)!"
    else DispatchResult.fatal "Downcast failed in g!(match move)!"
  | none => DispatchResult.fatal "Invalid match index in g!(match move)!"

/-- The move-mode expansion of `g!(match move ...)` (src/match_macro.rs
lines 146-212; the `match_t!` move branch at src/lib.rs lines 188-250
generates the same structure): run the probe pass, then switch on the
recorded index, aborting with "No matching type found" when no probe
matched. -/
def move_match_eval {α : Type} (arms : List (DispatchArm α)) (handle_ty : String) :
    DispatchResult α :=
  match move_probe_pass arms handle_ty with
  | some idx => move_index_switch arms handle_ty idx
  | none => DispatchResult.fatal "No matching type found in g!(match move)!"

/-- Left cancellation for string concatenation. -/
theorem string_append_left_cancel {p a b : String} (h : p ++ a = p ++ b) : a = b := by
  have h2 : (p ++ a).data = (p ++ b).data := by rw [h]
  rw [String.data_append, String.data_append] at h2
  have h3 := List.append_cancel_left h2
  cases a; cases b; exact congrArg String.mk h3

/-- Two hidden accessor names agree exactly when the lowercased variant
names agree. -/
theorem accessor_method_name_eq_iff (v w : String) :
    accessor_method_name v = accessor_method_name w ↔ lowerStr v = lowerStr w := by
  constructor
  · intro h
    exact string_append_left_cancel h
  · intro h
    unfold accessor_method_name
    rw [h]

/-- Everything collected by `extract_type_params_from_trait` is a
declared type parameter. -/
theorem extract_type_params_subset (ts : List Tok) (all : List String) (p : String) :
    p ∈ extract_type_params_from_trait ts all → p ∈ all := by
  induction ts, all using extract_type_params_from_trait.induct with
  | case1 all => simp [extract_type_params_from_trait]
  | case2 s rest all ih =>
    simp only [extract_type_params_from_trait, List.mem_append]
    rintro (h | h)
    · split at h
      · next hc =>
        simp only [List.mem_singleton] at h
        subst h
        exact List.elem_iff.mp hc
      · simp at h
    · exact ih h
  | case3 d inner rest all ih1 ih2 =>
    simp only [extract_type_params_from_trait, List.mem_append]
    rintro (h | h)
    · exact ih1 h
    · exact ih2 h
  | case4 t rest all h1 h2 ih =>
    intro h
    apply ih
    rw [extract_type_params_from_trait] at h
    · exact h
    · intro s hs
      exact h1 s hs
    · intro d inner hs
      exact h2 d inner hs

/-- The index recorded by the probe loop: `acc` when no remaining arm's
type matches, otherwise the offset of the LAST matching arm. -/
def lastMatchIdx {α : Type} (handle_ty : String) : List (DispatchArm α) → Option Nat
  | [] => none
  | a :: rest =>
    match lastMatchIdx handle_ty rest with
    | some j => some (j + 1)
    | none => if a.tyName == handle_ty then some 0 else none

/-- The probe loop computes the last matching index, shifted by the
running start index. -/
theorem move_probe_loop_eq {α : Type} (handle_ty : String) :
    ∀ (arms : List (DispatchArm α)) (i : Nat) (acc : Option Nat),
      move_probe_loop handle_ty arms i acc =
        (match lastMatchIdx handle_ty arms with
         | some j => some (i + j)
         | none => acc) := by
  intro arms
  induction arms with
  | nil => intro i acc; simp [move_probe_loop, lastMatchIdx]
  | cons a rest ih =>
    intro i acc
    rw [move_probe_loop, ih]
    cases hrest : lastMatchIdx handle_ty rest with
    | some j =>
      simp only [lastMatchIdx, hrest]
      congr 1
      omega
    | none =>
      simp only [lastMatchIdx, hrest]
      by_cases hty : (a.tyName == handle_ty) = true
      · simp [hty]
      · simp [hty]

/-- No matching arm, no recorded index. -/
theorem lastMatchIdx_none {α : Type} (handle_ty : String) :
    ∀ (arms : List (DispatchArm α)),
      (∀ a ∈ arms, a.tyName ≠ handle_ty) → lastMatchIdx handle_ty arms = none := by
  intro arms
  induction arms with
  | nil => intro _; rfl
  | cons a rest ih =>
    intro hno
    have hrest := ih (fun b hb => hno b (List.mem_cons_of_mem a hb))
    have hty : (a.tyName == handle_ty) = false := by
      simp only [beq_eq_false_iff_ne, ne_eq]
      exact hno a (List.mem_cons_self a rest)
    simp [lastMatchIdx, hrest, hty]

/-- When arm `j` matches and no later arm does, the last matching index
is `j`. -/
theorem lastMatchIdx_greatest {α : Type} (handle_ty : String) :
    ∀ (arms : List (DispatchArm α)) (j : Nat) (hj : j < arms.length),
      (arms.get ⟨j, hj⟩).tyName = handle_ty →
      (∀ k (hk : k < arms.length), j < k → (arms.get ⟨k, hk⟩).tyName ≠ handle_ty) →
      lastMatchIdx handle_ty arms = some j := by
  intro arms
  induction arms with
  | nil => intro j hj; cases hj
  | cons a rest ih =>
    intro j hj hmatch hlater
    cases j with
    | zero =>
      have hrest : lastMatchIdx handle_ty rest = none := by
        apply lastMatchIdx_none
        intro b hb
        obtain ⟨⟨k, hk⟩, hbk⟩ := List.mem_iff_get.mp hb
        have := hlater (k + 1) (by simpa using hk) (Nat.succ_pos k)
        rw [show ((a :: rest).get ⟨k + 1, by simpa using hk⟩) = rest.get ⟨k, hk⟩ from rfl] at this
        rw [hbk] at this
        exact this
      have hty : (a.tyName == handle_ty) = true := by
        simpa using hmatch
      simp [lastMatchIdx, hrest, hty]
    | succ n =>
      have hn : n < rest.length := by simpa using hj
      have hrest : lastMatchIdx handle_ty rest = some n := by
        apply ih n hn (by simpa using hmatch)
        intro k hk hlt
        have := hlater (k + 1) (by simpa using hk) (Nat.succ_lt_succ hlt)
        simpa using this
      simp [lastMatchIdx, hrest]

/-- First-match behaviour of the borrowed `match_t!` probe sequence. -/
theorem ref_match_loop_first {α : Type} (handle_ty : String) :
    ∀ (arms : List (DispatchArm α)) (i : Nat) (hi : i < arms.length),
      ref_probe (arms.get ⟨i, hi⟩) handle_ty = true →
      (∀ j (hj : j < arms.length), j < i → ref_probe (arms.get ⟨j, hj⟩) handle_ty = false) →
      ref_match_loop arms handle_ty = some (arms.get ⟨i, hi⟩).body := by
  intro arms
  induction arms with
  | nil => intro i hi; cases hi
  | cons a rest ih =>
    intro i hi hp hmin
    cases i with
    | zero =>
      simp only [List.get] at hp ⊢
      simp [ref_match_loop, hp]
    | succ n =>
      have h0 : ref_probe a handle_ty = false := hmin 0 (Nat.succ_pos _) (Nat.succ_pos n)
      have hn : n < rest.length := by simpa using hi
      simp only [ref_match_loop, h0, if_false, Bool.false_eq_true]
      have := ih n hn (by simpa using hp) (fun j hj hlt => by
        have := hmin (j + 1) (by simpa using hj) (Nat.succ_lt_succ hlt)
        simpa using this)
      simpa using this

/-- First-match behaviour of the borrowed `g!(match ...)` accessor
sequence. -/
theorem g_ref_match_loop_first {α : Type} (handle_ty : String) :
    ∀ (arms : List (DispatchArm α)) (i : Nat) (hi : i < arms.length),
      g_ref_probe (arms.get ⟨i, hi⟩) handle_ty = true →
      (∀ j (hj : j < arms.length), j < i → g_ref_probe (arms.get ⟨j, hj⟩) handle_ty = false) →
      g_ref_match_loop arms handle_ty = some (arms.get ⟨i, hi⟩).body := by
  intro arms
  induction arms with
  | nil => intro i hi; cases hi
  | cons a rest ih =>
    intro i hi hp hmin
    cases i with
    | zero =>
      simp only [List.get] at hp ⊢
      simp [g_ref_match_loop, hp]
    | succ n =>
      have h0 : g_ref_probe a handle_ty = false := hmin 0 (Nat.succ_pos _) (Nat.succ_pos n)
      have hn : n < rest.length := by simpa using hi
      simp only [g_ref_match_loop, h0, if_false, Bool.false_eq_true]
      have := ih n hn (by simpa using hp) (fun j hj hlt => by
        have := hmin (j + 1) (by simpa using hj) (Nat.succ_lt_succ hlt)
        simpa using this)
      simpa using this

/-- The borrowed probe sequence falls through all arms whose type does
not match. -/
theorem ref_match_loop_none {α : Type} (handle_ty : String) :
    ∀ (arms : List (DispatchArm α)),
      (∀ a ∈ arms, a.tyName ≠ handle_ty) → ref_match_loop arms handle_ty = none := by
  intro arms
  induction arms with
  | nil => intro _; rfl
  | cons a rest ih =>
    intro hno
    have hp : ref_probe a handle_ty = false := by
      unfold ref_probe
      have : (a.tyName == handle_ty) = false := by
        simp only [beq_eq_false_iff_ne, ne_eq]
        exact hno a (List.mem_cons_self a rest)
      simp [this]
    simp only [ref_match_loop, hp, if_false, Bool.false_eq_true]
    exact ih (fun b hb => hno b (List.mem_cons_of_mem a hb))

/-- C1, counterexample. The claim states that in move mode
`__matched_idx` after all probes equals the LEAST index whose
type-identity probe matched, and that the EARLIEST matching arm's body
is evaluated. With two arms probing the same type `A` (both patterns
matching, bodies `1` and `2`) and a handle of concrete type `A`, the
probe pass records index `1`, not `0`, and move-mode dispatch evaluates
the SECOND arm's body — while borrowed dispatch of the same arm list
evaluates the first. -/
theorem claim_C1_counterexample :
    move_probe_pass [⟨"A", true, (1 : Nat)⟩, ⟨"A", true, 2⟩] "A" = some 1
  ∧ move_probe_pass [⟨"A", true, (1 : Nat)⟩, ⟨"A", true, 2⟩] "A" ≠ some 0
  ∧ move_match_eval [⟨"A", true, (1 : Nat)⟩, ⟨"A", true, 2⟩] "A" = DispatchResult.value 2
  ∧ ref_match_eval [⟨"A", true, (1 : Nat)⟩, ⟨"A", true, 2⟩] "A" = DispatchResult.value 1 := by
  decide

/-- C1, amended. For every dispatch expansion: in borrowed mode (both
`match_t!` and `g!(match ...)`), when the probes of the arms before `i`
all fail and arm `i`'s probe matches, the body evaluated is arm `i`'s —
the earliest matching arm in declaration order wins. In move mode,
`__matched_idx` after all probes have run equals the GREATEST index `j`
whose type-identity probe matched (each matching probe overwrites the
recorded index), and when arm `j`'s pattern matches it is arm `j`'s body
that is evaluated. When exactly one arm's probe matches — the typical
case of arms naming distinct variant types — the two modes agree. -/
theorem claim_C1_amended :
    (∀ (α : Type) (arms : List (DispatchArm α)) (h : String) (i : Nat) (hi : i < arms.length),
        ref_probe (arms.get ⟨i, hi⟩) h = true →
        (∀ j (hj : j < arms.length), j < i → ref_probe (arms.get ⟨j, hj⟩) h = false) →
        ref_match_eval arms h = DispatchResult.value (arms.get ⟨i, hi⟩).body)
  ∧ (∀ (α : Type) (arms : List (DispatchArm α)) (h : String) (i : Nat) (hi : i < arms.length),
        g_ref_probe (arms.get ⟨i, hi⟩) h = true →
        (∀ j (hj : j < arms.length), j < i → g_ref_probe (arms.get ⟨j, hj⟩) h = false) →
        g_ref_match_eval arms h = DispatchResult.value (arms.get ⟨i, hi⟩).body)
  ∧ (∀ (α : Type) (arms : List (DispatchArm α)) (h : String) (j : Nat) (hj : j < arms.length),
        (arms.get ⟨j, hj⟩).tyName = h →
        (∀ k (hk : k < arms.length), j < k → (arms.get ⟨k, hk⟩).tyName ≠ h) →
        move_probe_pass arms h = some j
        ∧ ((arms.get ⟨j, hj⟩).patOk = true →
            move_match_eval arms h = DispatchResult.value (arms.get ⟨j, hj⟩).body)) := by
  refine ⟨?_, ?_, ?_⟩
  · intro α arms h i hi hp hmin
    unfold ref_match_eval
    rw [ref_match_loop_first h arms i hi hp hmin]
  · intro α arms h i hi hp hmin
    unfold g_ref_match_eval
    rw [g_ref_match_loop_first h arms i hi hp hmin]
  · intro α arms h j hj hmatch hlater
    have hlast : lastMatchIdx h arms = some j :=
      lastMatchIdx_greatest h arms j hj hmatch hlater
    have hpass : move_probe_pass arms h = some j := by
      unfold move_probe_pass
      rw [move_probe_loop_eq h arms 0 none, hlast]
      simp
    refine ⟨hpass, fun hpat => ?_⟩
    unfold move_match_eval
    rw [hpass]
    show move_index_switch arms h j = _
    unfold move_index_switch
    rw [List.get?_eq_get hj]
    simp only [List.get_eq_getElem] at hmatch hpat
    simp [hmatch, hpat]

/-- C1, witness: the amended theorem applied at concrete inputs — a
two-arm borrowed dispatch firing on the second arm, a one-arm accessor
dispatch, and the duplicate-arm move dispatch recording the greatest
matching index. -/
theorem claim_C1_witness :
    ref_match_eval [⟨"B", true, (7 : Nat)⟩, ⟨"A", true, 8⟩] "A" = DispatchResult.value 8
  ∧ g_ref_match_eval [⟨"Left", true, (5 : Nat)⟩] "Left" = DispatchResult.value 5
  ∧ move_probe_pass [⟨"A", true, (1 : Nat)⟩, ⟨"A", true, 2⟩] "A" = some 1
  ∧ move_match_eval [⟨"A", true, (1 : Nat)⟩, ⟨"A", true, 2⟩] "A" = DispatchResult.value 2 := by
  have h1 := claim_C1_amended.1 Nat [⟨"B", true, 7⟩, ⟨"A", true, 8⟩] "A" 1 (by decide)
    (by decide) (by decide)
  have h2 := claim_C1_amended.2.1 Nat [⟨"Left", true, 5⟩] "Left" 0 (by decide)
    (by decide) (by decide)
  have h3 := claim_C1_amended.2.2 Nat [⟨"A", true, 1⟩, ⟨"A", true, 2⟩] "A" 1 (by decide)
    (by decide) (by decide)
  exact ⟨h1, h2, h3.1, h3.2 (by decide)⟩

/-- C2, counterexample. The claim gives a concrete rewrite: the
signature text `fn to_pair (& self) -> (& A , & B)`, for a union with
parameters `[A, B]` and a variant refined to `Pair<B, A>`, is said to
rewrite to `fn to_pair (& self) -> (& B , & A)`. The code's first-pass
replacement maps the two-character context `"& A"` to `"&__PLACEHOLDER_0__"`,
dropping the space after `&`, so the actual output spells `&B` and `&A`
without the space and differs from the claimed text. -/
theorem claim_C2_counterexample :
    substitute_type_params "fn to_pair (& self) -> (& A , & B)"
        [Tok.ident "Pair", Tok.punct '<' Spacing.alone, Tok.ident "B",
         Tok.punct ',' Spacing.alone, Tok.ident "A", Tok.punct '>' Spacing.alone]
        ["A", "B"]
      ≠ "fn to_pair (& self) -> (& B , & A)" := by
  decide

/-- C2, amended. The two-pass rename is correct under the permutation
refinement `Pair<B, A>` of a union declared over `[A, B]`: every
occurrence of `A` in a recognized punctuation context is replaced by `B`
and simultaneously every such occurrence of `B` by `A`, neither
replacement clobbering the other; the replacement normalizes `& X` to
`&X` (the space after `&` is dropped), so the example signature
`fn to_pair (& self) -> (& A , & B)` rewrites to
`fn to_pair (& self) -> (&B , &A)`. The `->` context keeps its space:
`fn fst (& self) -> A` rewrites to `fn fst (& self) -> B`. -/
theorem claim_C2_amended :
    substitute_type_params "fn to_pair (& self) -> (& A , & B)"
        [Tok.ident "Pair", Tok.punct '<' Spacing.alone, Tok.ident "B",
         Tok.punct ',' Spacing.alone, Tok.ident "A", Tok.punct '>' Spacing.alone]
        ["A", "B"]
      = "fn to_pair (& self) -> (&B , &A)"
  ∧ substitute_type_params "fn fst (& self) -> A"
        [Tok.ident "Pair", Tok.punct '<' Spacing.alone, Tok.ident "B",
         Tok.punct ',' Spacing.alone, Tok.ident "A", Tok.punct '>' Spacing.alone]
        ["A", "B"]
      = "fn fst (& self) -> B" := by
  constructor
  · decide
  · decide

/-- C3: in borrowed `match_t!` dispatch, a handle whose concrete type
matches no arm's probe aborts with "No matching type found" rather than
silently continuing or producing a default; in move mode the probe pass
records no index and dispatch aborts likewise; and reaching the
second-pass index switch with an index that names no arm aborts with
"Invalid match index". -/
theorem claim_C3_no_match_aborts (α : Type) (arms : List (DispatchArm α)) (h : String)
    (hno : ∀ a ∈ arms, a.tyName ≠ h) :
    ref_match_eval arms h = DispatchResult.fatal "No matching type found in match_t!"
  ∧ move_match_eval arms h = DispatchResult.fatal "No matching type found in g!(match move)!"
  ∧ ∀ idx, arms.length ≤ idx →
      move_index_switch arms h idx = DispatchResult.fatal "Invalid match index in g!(match move)!" := by
  refine ⟨?_, ?_, ?_⟩
  · unfold ref_match_eval
    rw [ref_match_loop_none h arms hno]
  · unfold move_match_eval
    unfold move_probe_pass
    rw [move_probe_loop_eq h arms 0 none, lastMatchIdx_none h arms hno]
  · intro idx hidx
    unfold move_index_switch
    rw [List.get?_eq_none.mpr hidx]

/-- C3, witness: a one-arm dispatch probed with a type that is not the
arm's aborts in both modes, and index 3 is outside the arm list. -/
theorem claim_C3_witness :
    ref_match_eval [⟨"Circle", true, (1 : Nat)⟩] "Rectangle"
      = DispatchResult.fatal "No matching type found in match_t!"
  ∧ move_match_eval [⟨"Circle", true, (1 : Nat)⟩] "Rectangle"
      = DispatchResult.fatal "No matching type found in g!(match move)!"
  ∧ move_index_switch [⟨"Circle", true, (1 : Nat)⟩] "Rectangle" 3
      = DispatchResult.fatal "Invalid match index in g!(match move)!" := by
  have h := claim_C3_no_match_aborts Nat [⟨"Circle", true, 1⟩] "Rectangle" (by decide)
  exact ⟨h.1, h.2.1, h.2.2 3 (by decide)⟩

/-- C4, counterexample. The claim states that a variant `V` named by no
arm gets no generated body, and that with several arms naming `V` the
first naming arm supplies the body. The code instead filters arms by
SUBSTRING containment of the variant name in the rendered pattern text.
With variants `Rect` and `Rectangle` and a single arm
`Rectangle(w , h) => b` — an arm that names `Rectangle`, not `Rect` —
`generate_method_body` for `Rect` nevertheless returns `some` (the
pattern text contains `"Rect"`), refuting "returns None"; and with arms
`Rectangle(w , h) => b1, Rect(x) => b2`, the first arm NAMING `Rect` is
the second, yet the generated body is `b1` from the first
(containment-matching) arm. -/
theorem claim_C4_counterexample :
    generate_method_body "Rect" "fn area (& self) -> f64"
        [⟨"Rectangle(w , h)", "b"⟩] [] [] ≠ none
  ∧ (generate_method_body "Rect" "fn area (& self) -> f64"
        [⟨"Rectangle(w , h)", "b1"⟩, ⟨"Rect(x)", "b2"⟩] [] []).map
      GeneratedMethodImpl.body ≠ some "b2"
  ∧ (generate_method_body "Rect" "fn area (& self) -> f64"
        [⟨"Rectangle(w , h)", "b1"⟩, ⟨"Rect(x)", "b2"⟩] [] []).map
      GeneratedMethodImpl.body = some "b1" := by
  refine ⟨?_, ?_, ?_⟩
  · decide
  · decide
  · decide

/-- C4, amended. `generate_method_body` selects arms by substring
containment of the variant name in the rendered pattern text, not by
exact naming: it returns `none` exactly when no arm's pattern text
contains the variant name as a substring, and otherwise the FIRST arm
in declaration order whose pattern text contains the variant name
supplies the generated body (later matching arms are ignored), the
signature being rewritten by `substitute_type_params`. When no variant
name is a substring of another variant's arm pattern text — the typical
case of distinct, non-prefix variant names — this coincides with the
claim's naming-based rule. -/
theorem claim_C4_arm_selection (v method_sig : String) (arms : List MethodArm)
    (trait_type : List Tok) (params : List String) :
    ((∀ a ∈ arms, arm_names_variant a v = false) →
      generate_method_body v method_sig arms trait_type params = none)
  ∧ (∀ (pre : List MethodArm) (a : MethodArm) (post : List MethodArm),
      arms = pre ++ a :: post →
      arm_names_variant a v = true →
      (∀ b ∈ pre, arm_names_variant b v = false) →
      generate_method_body v method_sig arms trait_type params =
        some { sig := substitute_type_params method_sig trait_type params,
               body := a.body,
               is_boxed_self := strContains method_sig "self : Box < Self >"
                 || strContains method_sig "self: Box<Self>" }) := by
  constructor
  · intro hnone
    unfold generate_method_body
    have hfil : matching_arms v arms = [] := by
      unfold matching_arms
      rw [List.filter_eq_nil_iff]
      intro a ha
      simp [hnone a ha]
    rw [hfil]
  · intro pre a post harms ha hpre
    unfold generate_method_body
    have hfil : matching_arms v arms
        = a :: (post.filter fun b => arm_names_variant b v) := by
      subst harms
      unfold matching_arms
      rw [List.filter_append]
      rw [List.filter_eq_nil_iff.mpr (fun b hb => by simp [hpre b hb])]
      simp [List.filter_cons, ha]
    rw [hfil]

/-- C4, witness: with arms `Rect(w, h) => 0`, `Circle(r) => 1`,
`Circle(q) => 2`, variant `Circle` selects the first `Circle` arm (body
`1`), and variant `Triangle` has no generated body. -/
theorem claim_C4_witness :
    generate_method_body "Circle" "fn area (& self) -> f64"
        [⟨"Rect(w, h)", "0"⟩, ⟨"Circle(r)", "1"⟩, ⟨"Circle(q)", "2"⟩] [] []
      = some { sig := substitute_type_params "fn area (& self) -> f64" [] [],
               body := "1",
               is_boxed_self := strContains "fn area (& self) -> f64" "self : Box < Self >"
                 || strContains "fn area (& self) -> f64" "self: Box<Self>" }
  ∧ generate_method_body "Triangle" "fn area (& self) -> f64"
        [⟨"Rect(w, h)", "0"⟩, ⟨"Circle(r)", "1"⟩, ⟨"Circle(q)", "2"⟩] [] []
      = none := by
  constructor
  · exact (claim_C4_arm_selection "Circle" "fn area (& self) -> f64"
      [⟨"Rect(w, h)", "0"⟩, ⟨"Circle(r)", "1"⟩, ⟨"Circle(q)", "2"⟩] [] []).2
      [⟨"Rect(w, h)", "0"⟩] ⟨"Circle(r)", "1"⟩ [⟨"Circle(q)", "2"⟩]
      (by decide) (by decide) (by decide)
  · exact (claim_C4_arm_selection "Triangle" "fn area (& self) -> f64"
      [⟨"Rect(w, h)", "0"⟩, ⟨"Circle(r)", "1"⟩, ⟨"Circle(q)", "2"⟩] [] []).1
      (by decide)

/-- C5, counterexample. The claim states that an arrow `->` inside
`<...>` does not split a parameter type. Scanning the annotation tokens
of `D4 : Box<dyn Fn(A) -> B> -> T`, whose only top-level arrow is the
second one, the claim therefore predicts the single parameter type
`Box<dyn Fn(A) -> B>`; but the arrow check in `parse_variant` is not
guarded by the angle depth, so the scan splits at the inner arrow as
well and produces TWO parameter types, `Box<dyn Fn(A)` and `B>`. -/
theorem claim_C5_counterexample :
    parse_variant_types
      [Tok.ident "Box", Tok.punct '<' Spacing.alone, Tok.ident "dyn", Tok.ident "Fn",
       Tok.group Delim.paren [Tok.ident "A"], Tok.punct '-' Spacing.joint,
       Tok.punct '>' Spacing.alone, Tok.ident "B", Tok.punct '>' Spacing.alone,
       Tok.punct '-' Spacing.joint, Tok.punct '>' Spacing.alone, Tok.ident "T"]
      = ([[Tok.ident "Box", Tok.punct '<' Spacing.alone, Tok.ident "dyn", Tok.ident "Fn",
           Tok.group Delim.paren [Tok.ident "A"]],
          [Tok.ident "B", Tok.punct '>' Spacing.alone]],
         [Tok.ident "T"])
  ∧ (parse_variant_types
      [Tok.ident "Box", Tok.punct '<' Spacing.alone, Tok.ident "dyn", Tok.ident "Fn",
       Tok.group Delim.paren [Tok.ident "A"], Tok.punct '-' Spacing.joint,
       Tok.punct '>' Spacing.alone, Tok.ident "B", Tok.punct '>' Spacing.alone,
       Tok.punct '-' Spacing.joint, Tok.punct '>' Spacing.alone, Tok.ident "T"]).1.length
      ≠ 1 := by
  constructor
  · rfl
  · intro h
    rw [show (parse_variant_types
        [Tok.ident "Box", Tok.punct '<' Spacing.alone, Tok.ident "dyn", Tok.ident "Fn",
         Tok.group Delim.paren [Tok.ident "A"], Tok.punct '-' Spacing.joint,
         Tok.punct '>' Spacing.alone, Tok.ident "B", Tok.punct '>' Spacing.alone,
         Tok.punct '-' Spacing.joint, Tok.punct '>' Spacing.alone, Tok.ident "T"]).1.length
        = 2 from rfl] at h
    cases h

/-- C5, amended. In the declaration parsers, a comma nested inside
angle brackets is never a top-level separator: `parse_variant`'s scan
consumes a comma at non-zero depth into the pending parameter type, and
the refinement-type scan of `ParsedEnum::parse` consumes a comma at
non-zero depth into the trait type. The arrow `->`, however, flushes the
pending tokens as a parameter type at EVERY depth, inside `<...>`
included. The claim's own example is as stated: `D3 : Foo<A, B> -> T<A>`
parses as one parameter type `Foo<A, B>` with return type `T<A>`, its
arrow being at depth zero. -/
theorem claim_C5_amended :
    (∀ (rest : List Tok) (sp : Spacing) (d : Int) (cur : List Tok) (ps : List (List Tok)),
        d ≠ 0 →
        scanVariantTypes (Tok.punct ',' sp :: rest) d cur ps =
          scanVariantTypes rest d (cur ++ [Tok.punct ',' sp]) ps)
  ∧ (∀ (rest : List Tok) (sp : Spacing) (d : Int) (cur : List Tok) (ps : List (List Tok)),
        scanVariantTypes (Tok.punct '-' Spacing.joint :: Tok.punct '>' sp :: rest) d cur ps =
          scanVariantTypes rest d [] (ps ++ (if cur.isEmpty then [] else [cur])))
  ∧ (∀ (rest : List Tok) (sp : Spacing) (d : Nat) (acc : List Tok),
        d ≠ 0 →
        scanTraitType (Tok.punct ',' sp :: rest) d acc =
          scanTraitType rest d (acc ++ [Tok.punct ',' sp]))
  ∧ parse_variant_types
      [Tok.ident "Foo", Tok.punct '<' Spacing.alone, Tok.ident "A",
       Tok.punct ',' Spacing.alone, Tok.ident "B", Tok.punct '>' Spacing.alone,
       Tok.punct '-' Spacing.joint, Tok.punct '>' Spacing.alone,
       Tok.ident "T", Tok.punct '<' Spacing.alone, Tok.ident "A", Tok.punct '>' Spacing.alone]
      = ([[Tok.ident "Foo", Tok.punct '<' Spacing.alone, Tok.ident "A",
           Tok.punct ',' Spacing.alone, Tok.ident "B", Tok.punct '>' Spacing.alone]],
         [Tok.ident "T", Tok.punct '<' Spacing.alone, Tok.ident "A", Tok.punct '>' Spacing.alone]) := by
  refine ⟨?_, ?_, ?_, ?_⟩
  · intro rest sp d cur ps hd
    show (if (Tok.punct ',' sp).isComma ∧ d = 0 then (ps, cur)
          else scanVariantTypes rest (d + angleDelta (Tok.punct ',' sp))
            (cur ++ [Tok.punct ',' sp]) ps)
        = scanVariantTypes rest d (cur ++ [Tok.punct ',' sp]) ps
    rw [if_neg (fun hc => hd hc.2)]
    rw [show angleDelta (Tok.punct ',' sp) = 0 from rfl, Int.add_zero]
  · intro rest sp d cur ps
    rfl
  · intro rest sp d acc hd
    show (if (Tok.punct ',' sp).isComma ∧ d = 0 then (acc, Tok.punct ',' sp :: rest)
          else scanTraitType rest (angleStepNat d (Tok.punct ',' sp)) (acc ++ [Tok.punct ',' sp]))
        = scanTraitType rest d (acc ++ [Tok.punct ',' sp])
    rw [if_neg (fun hc => hd hc.2)]
    rfl
  · rfl

/-- C5, witness: the amended comma rules applied at depth 1 — the comma
is consumed into the pending tokens in both scanners. -/
theorem claim_C5_witness :
    scanVariantTypes [Tok.punct ',' Spacing.alone, Tok.ident "B"] 1 [Tok.ident "A"] []
      = scanVariantTypes [Tok.ident "B"] 1 [Tok.ident "A", Tok.punct ',' Spacing.alone] []
  ∧ scanTraitType [Tok.punct ',' Spacing.alone, Tok.ident "B"] 1 [Tok.ident "A"]
      = scanTraitType [Tok.ident "B"] 1 [Tok.ident "A", Tok.punct ',' Spacing.alone] := by
  constructor
  · exact claim_C5_amended.1 [Tok.ident "B"] Spacing.alone 1 [Tok.ident "A"] [] (by decide)
  · exact claim_C5_amended.2.2.1 [Tok.ident "B"] Spacing.alone 1 [Tok.ident "A"] (by decide)

/-- C6: the set of generic parameters declared on a variant's generated
impl block — the filter of the declared union-level parameters kept by
`generate_combined_trait_impl` — consists exactly of the union-level
parameters extracted from the variant's applicable trait/refinement type
together with those extracted from the variant struct's own type
generics: membership in the filtered list is equivalent to membership in
either extraction, and anything extracted is itself a declared
parameter. -/
theorem claim_C6_impl_generics_union (unionParams : List String)
    (trait_type variant_ty_generics : List Tok) (p : String) :
    p ∈ filtered_impl_generics unionParams trait_type variant_ty_generics unionParams ↔
      (p ∈ extract_type_params_from_trait trait_type unionParams
        ∨ p ∈ extract_type_params_from_trait variant_ty_generics unionParams) := by
  unfold filtered_impl_generics
  rw [List.mem_filter]
  constructor
  · rintro ⟨_, hcont⟩
    have hmem := List.elem_iff.mp hcont
    simpa [List.mem_append] using hmem
  · intro h
    have hp_all : p ∈ unionParams := by
      cases h with
      | inl h => exact extract_type_params_subset _ _ _ h
      | inr h => exact extract_type_params_subset _ _ _ h
    refine ⟨hp_all, ?_⟩
    apply List.elem_iff.mpr
    rw [List.mem_append]
    exact h

/-- C7: a record of variant `V` dispatched against an arm list with
exactly one arm for `V` (whose pattern matches) evaluates that arm's
body, in both borrowed and move mode; concretely, borrowed dispatch of a
`Circle` handle against `Circle => true, Rectangle => false,
Triangle => false` yields `true`. -/
theorem claim_C7_unique_arm :
    (∀ (α : Type) (arms : List (DispatchArm α)) (V : String) (i : Nat) (hi : i < arms.length),
        (arms.get ⟨i, hi⟩).tyName = V →
        (arms.get ⟨i, hi⟩).patOk = true →
        (∀ j (hj : j < arms.length), j ≠ i → (arms.get ⟨j, hj⟩).tyName ≠ V) →
        ref_match_eval arms V = DispatchResult.value (arms.get ⟨i, hi⟩).body
        ∧ move_match_eval arms V = DispatchResult.value (arms.get ⟨i, hi⟩).body)
  ∧ ref_match_eval
      [⟨"Circle", true, true⟩, ⟨"Rectangle", true, false⟩, ⟨"Triangle", true, false⟩]
      "Circle" = DispatchResult.value true := by
  constructor
  · intro α arms V i hi hty hpat huniq
    constructor
    · unfold ref_match_eval
      rw [ref_match_loop_first V arms i hi
        (by
          simp only [List.get_eq_getElem] at hty hpat
          simp [ref_probe, hty, hpat])
        (fun j hj hlt => by
          have hne := huniq j hj (Nat.ne_of_lt hlt)
          simp only [List.get_eq_getElem] at hne
          simp [ref_probe, hne])]
    · have hlast : lastMatchIdx V arms = some i :=
        lastMatchIdx_greatest V arms i hi hty
          (fun k hk hgt => huniq k hk (Nat.ne_of_gt hgt))
      have hpass : move_probe_pass arms V = some i := by
        unfold move_probe_pass
        rw [move_probe_loop_eq V arms 0 none, hlast]
        simp
      unfold move_match_eval
      rw [hpass]
      show move_index_switch arms V i = _
      unfold move_index_switch
      rw [List.get?_eq_get hi]
      simp only [List.get_eq_getElem] at hty hpat
      simp [hty, hpat]
  · rfl

/-- C7, witness: the unique-arm theorem applied to the Shape scenario —
`Circle(5.0)` against `Circle => true, Rectangle => false,
Triangle => false` evaluates the Circle arm in both modes. -/
theorem claim_C7_witness :
    ref_match_eval
      [⟨"Circle", true, true⟩, ⟨"Rectangle", true, false⟩, ⟨"Triangle", true, false⟩]
      "Circle" = DispatchResult.value true
  ∧ move_match_eval
      [⟨"Circle", true, true⟩, ⟨"Rectangle", true, false⟩, ⟨"Triangle", true, false⟩]
      "Circle" = DispatchResult.value true := by
  have h := claim_C7_unique_arm.1 Bool
    [⟨"Circle", true, true⟩, ⟨"Rectangle", true, false⟩, ⟨"Triangle", true, false⟩]
    "Circle" 0 (by decide) (by decide) (by decide) (by decide)
  exact h

/-- Pushing the right-to-left group search over a group-free chunk. -/
theorem addRestAux_append (l : List Tok) (hl : ∀ t ∈ l, t.isGroup = false)
    (dl : Delim) (inner r : List Tok) :
    addRestAux (l ++ Tok.group dl inner :: r)
      = some (l ++ Tok.group dl (add_rest_inner inner) :: r) := by
  induction l with
  | nil => rfl
  | cons t l ih =>
    have ht : t.isGroup = false := hl t (List.mem_cons_self t l)
    have hrec := ih (fun b hb => hl b (List.mem_cons_of_mem t hb))
    cases t with
    | ident s => simp [addRestAux, hrec]
    | lit s => simp [addRestAux, hrec]
    | punct c sp => simp [addRestAux, hrec]
    | group d ts => simp [Tok.isGroup] at ht

/-- C8, counterexample. The claim states that every pattern whose last
group is non-empty and rest-free comes back with `, ..` appended inside
that group. For the pattern `Circle(x,)` — the group already ends with a
comma — the code appends only `..` without a further comma, so the
output differs from the claimed `Circle(x,, ..)`. -/
theorem claim_C8_counterexample :
    transform_pattern_add_rest
        [Tok.ident "Circle", Tok.group Delim.paren [Tok.ident "x", Tok.punct ',' Spacing.alone]]
      = [Tok.ident "Circle", Tok.group Delim.paren
          [Tok.ident "x", Tok.punct ',' Spacing.alone,
           Tok.punct '.' Spacing.joint, Tok.punct '.' Spacing.alone]]
  ∧ transform_pattern_add_rest
        [Tok.ident "Circle", Tok.group Delim.paren [Tok.ident "x", Tok.punct ',' Spacing.alone]]
      ≠ [Tok.ident "Circle", Tok.group Delim.paren
          ([Tok.ident "x", Tok.punct ',' Spacing.alone]
            ++ [Tok.punct ',' Spacing.alone, Tok.punct '.' Spacing.joint,
                Tok.punct '.' Spacing.alone])] := by
  constructor
  · rfl
  · intro h
    have hlen := congrArg (fun l : List Tok =>
      match l with
      | _ :: Tok.group _ inner :: _ => inner.length
      | _ => 0) h
    exact absurd hlen (by decide)

/-- C8, amended. `transform_pattern_add_rest` rewrites the LAST group of
the pattern (group-free tokens may follow it): when that group has no
rest token and is non-empty, it appends `, ..` if the group does not
already end with a comma, and just `..` after an existing trailing
comma; when the group already contains a rest token (a joint `.`), the
pattern is returned unchanged. -/
theorem claim_C8_amended (pre post : List Tok) (dl : Delim) (inner : List Tok)
    (hpost : ∀ t ∈ post, t.isGroup = false) :
    (transform_pattern_add_rest (pre ++ Tok.group dl inner :: post)
        = pre ++ Tok.group dl (add_rest_inner inner) :: post)
  ∧ (has_rest_tok inner = false → inner.isEmpty = false → lastIsComma inner = false →
      add_rest_inner inner
        = inner ++ [Tok.punct ',' Spacing.alone, Tok.punct '.' Spacing.joint,
                    Tok.punct '.' Spacing.alone])
  ∧ (has_rest_tok inner = false → inner.isEmpty = false → lastIsComma inner = true →
      add_rest_inner inner
        = inner ++ [Tok.punct '.' Spacing.joint, Tok.punct '.' Spacing.alone])
  ∧ (has_rest_tok inner = true →
      transform_pattern_add_rest (pre ++ Tok.group dl inner :: post)
        = pre ++ Tok.group dl inner :: post) := by
  have hmain : transform_pattern_add_rest (pre ++ Tok.group dl inner :: post)
      = pre ++ Tok.group dl (add_rest_inner inner) :: post := by
    unfold transform_pattern_add_rest
    rw [show (pre ++ Tok.group dl inner :: post).reverse
        = post.reverse ++ Tok.group dl inner :: pre.reverse by simp]
    rw [addRestAux_append post.reverse (fun t ht => hpost t (by simpa using ht)) dl inner
      pre.reverse]
    simp
  refine ⟨hmain, ?_, ?_, ?_⟩
  · intro h1 h2 h3
    unfold add_rest_inner
    simp [h1, h2, h3, restDots]
  · intro h1 h2 h3
    unfold add_rest_inner
    simp [h1, h2, h3, restDots]
  · intro h1
    rw [hmain]
    unfold add_rest_inner
    simp [h1]

/-- C8, witness: the amended rewrite applied to `Circle(x)` (comma and
rest appended), to `Circle(x,)` (only the rest appended), and to
`Circle(x, ..)` (unchanged). -/
theorem claim_C8_witness :
    transform_pattern_add_rest [Tok.ident "Circle", Tok.group Delim.paren [Tok.ident "x"]]
      = [Tok.ident "Circle", Tok.group Delim.paren
          ([Tok.ident "x"] ++ [Tok.punct ',' Spacing.alone, Tok.punct '.' Spacing.joint,
            Tok.punct '.' Spacing.alone])]
  ∧ transform_pattern_add_rest
        [Tok.ident "Circle", Tok.group Delim.paren
          [Tok.ident "x", Tok.punct ',' Spacing.alone, Tok.punct '.' Spacing.joint,
           Tok.punct '.' Spacing.alone]]
      = [Tok.ident "Circle", Tok.group Delim.paren
          [Tok.ident "x", Tok.punct ',' Spacing.alone, Tok.punct '.' Spacing.joint,
           Tok.punct '.' Spacing.alone]] := by
  constructor
  · have h := claim_C8_amended [Tok.ident "Circle"] [] Delim.paren [Tok.ident "x"]
      (fun t ht => absurd ht (List.not_mem_nil t))
    have h1 := h.1
    rw [h.2.1 rfl rfl rfl] at h1
    simpa using h1
  · have h := claim_C8_amended [Tok.ident "Circle"] [] Delim.paren
      [Tok.ident "x", Tok.punct ',' Spacing.alone, Tok.punct '.' Spacing.joint,
       Tok.punct '.' Spacing.alone]
      (fun t ht => absurd ht (List.not_mem_nil t))
    simpa using h.2.2.2 rfl

/-- C9: a zero-field variant's hidden accessor is declared on the trait
with the unit-valued result type `Option<()>` and default body `None`,
and the variant's own impl block overrides it to `Some(())`; invoking it
on the variant's own record yields `Some(())`, and on another variant's
record (whose generated accessor name differs, i.e. whose lowercased
name differs) it falls to the trait default and yields `None`. -/
theorem claim_C9_zero_field_accessor (v w : String) (gens : Bool) :
    trait_accessor_ret [] gens = AccessorRet.unit
  ∧ zero_field_trait_default = none
  ∧ zero_field_accessor_impl = some ()
  ∧ invoke_zero_field_accessor v v = some ()
  ∧ (lowerStr v ≠ lowerStr w → invoke_zero_field_accessor v w = none) := by
  refine ⟨rfl, rfl, rfl, ?_, ?_⟩
  · unfold invoke_zero_field_accessor
    rw [if_pos rfl]
    rfl
  · intro hne
    unfold invoke_zero_field_accessor
    rw [if_neg (fun he => hne ((accessor_method_name_eq_iff v w).mp he))]
    rfl

/-- C9, witness: the zero-field variant `Zero` of a `Nat`-like union —
its accessor yields `Some(())` on a `Zero` record and `None` on a `Succ`
record. -/
theorem claim_C9_witness :
    invoke_zero_field_accessor "Zero" "Zero" = some ()
  ∧ invoke_zero_field_accessor "Zero" "Succ" = none
  ∧ trait_accessor_ret [] false = AccessorRet.unit := by
  have h := claim_C9_zero_field_accessor "Zero" "Succ" false
  exact ⟨h.2.2.2.1, h.2.2.2.2 (by decide), h.1⟩

/-- C10: the dispatch arm parser treats a trailing comma after the final
arm as optional. Whenever the token loop ends in body position with a
non-empty pending pattern/body pair — i.e. the input ends with a
completed last arm — appending one more comma produces the same arm
list, because without the comma the pending pair is flushed after the
loop ("Don't forget the last arm") and with it the comma flushes the
same pair inside the loop. -/
theorem claim_C10_trailing_comma (tokens : List Tok) :
    (tokens.foldl armsStep ⟨[], [], [], false⟩).inBody = true →
    ((tokens.foldl armsStep ⟨[], [], [], false⟩).pat.isEmpty = false
      ∨ (tokens.foldl armsStep ⟨[], [], [], false⟩).body.isEmpty = false) →
    parse_match_arms (tokens ++ [Tok.punct ',' Spacing.alone]) = parse_match_arms tokens := by
  intro hin hne
  unfold parse_match_arms
  rw [List.foldl_append]
  have hstep : List.foldl armsStep (tokens.foldl armsStep ⟨[], [], [], false⟩)
      [Tok.punct ',' Spacing.alone]
      = { arms := (tokens.foldl armsStep ⟨[], [], [], false⟩).arms
            ++ [((tokens.foldl armsStep ⟨[], [], [], false⟩).pat,
                 (tokens.foldl armsStep ⟨[], [], [], false⟩).body)],
          pat := [], body := [], inBody := false } := by
    show armsStep (tokens.foldl armsStep ⟨[], [], [], false⟩) (Tok.punct ',' Spacing.alone) = _
    simp only [armsStep]
    rw [if_pos hin]
  rw [hstep]
  have hcond : (!(tokens.foldl armsStep ⟨[], [], [], false⟩).pat.isEmpty
      || !(tokens.foldl armsStep ⟨[], [], [], false⟩).body.isEmpty) = true := by
    cases hne with
    | inl h => simp [h]
    | inr h => simp [h]
  simp [hcond]

/-- C10, witness: the arm `A => x` parses identically with and without a
trailing comma. -/
theorem claim_C10_witness :
    parse_match_arms
      [Tok.ident "A", Tok.punct '=' Spacing.joint, Tok.punct '>' Spacing.alone,
       Tok.ident "x", Tok.punct ',' Spacing.alone]
    = parse_match_arms
      [Tok.ident "A", Tok.punct '=' Spacing.joint, Tok.punct '>' Spacing.alone,
       Tok.ident "x"] := by
  exact claim_C10_trailing_comma
    [Tok.ident "A", Tok.punct '=' Spacing.joint, Tok.punct '>' Spacing.alone, Tok.ident "x"]
    rfl (Or.inr rfl)
